import Mathlib

/-
Verification development for the Evergreen project-configuration compiler.

The definitions below are a shallow embedding of the Go sources:
  * the tag selector language and its evaluator
    (src/unnamed/part_005, src/model/project_selector.go);
  * the matrix engine and the translator
    (src/model/task/task.go, lines 1100-1990).

Go error returns are modelled with Except String / Option String; a Go
panic is modelled as the distinguished value none of an Option result.
Functions from packages of the repository that are not present under
src (the util and command packages, the axis selector evaluator) are
modelled from the specification and marked as such in their doc comments.
-/

/-! ## Selector language (src/model/project_selector.go, src/unnamed/part_005) -/

/-- The special all-selector name, source constant SelectAll. -/
def SelectAll : String := "*"

/-- One selection criterion: a name with the tagged (dot) and
negated (bang) modifiers, source type selectCriterion. -/
structure selectCriterion where
  name : String
  tagged : Bool := false
  negated : Bool := false
deriving DecidableEq, Repr

/-- A selector is a list of criteria, source type Selector. -/
abbrev Selector := List selectCriterion

/-- Drops a leading occurrence of the character c, reporting whether it
was present. String operations are modelled on character lists. -/
def stripLead (c : Char) (cs : List Char) : Bool × List Char :=
  match cs with
  | d :: rest => if d = c then (true, rest) else (false, cs)
  | [] => (false, [])

/-- Source function stringToCriterion: strips a leading bang and then a
leading dot from a criterion string. -/
def stringToCriterion (s : String) : selectCriterion :=
  let r1 := stripLead '!' s.data
  let r2 := stripLead '.' r1.2
  { name := r2.2.asString, tagged := r2.1, negated := r1.1 }

/-- The whitespace splitter behind strings.Fields: accumulate the current
field in reverse, flushing it at each whitespace run. -/
def splitWSGo : List Char → List Char → List (List Char) → List (List Char)
  | [], cur, acc =>
    if cur.isEmpty then acc.reverse else (cur.reverse :: acc).reverse
  | c :: rest, cur, acc =>
    if c.isWhitespace then
      if cur.isEmpty then splitWSGo rest [] acc
      else splitWSGo rest [] (cur.reverse :: acc)
    else splitWSGo rest (c :: cur) acc

/-- Source function ParseSelector: splits the selector string on
whitespace (strings.Fields) and parses each field as a criterion. -/
def ParseSelector (s : String) : Selector :=
  (splitWSGo s.data [] []).map (fun cs => stringToCriterion cs.asString)

/-- True when the string starts with a bang or a dot, the Go test
strings.IndexAny(name, InvalidCriterionRunes) == 0. -/
def startsWithInvalidRune (s : String) : Bool :=
  match s.data with
  | c :: _ => c = '!' || c = '.'
  | [] => false

/-- Source method selectCriterion.Validate. Returns some message when the
criterion is invalid: empty name, a name starting with a bang or a dot,
or the all-selector combined with a modifier. none means valid. -/
def criterionValidate (sc : selectCriterion) : Option String :=
  if sc.name = "" then some "name is empty"
  else if startsWithInvalidRune sc.name then
    some "name starts with invalid character"
  else if sc.name = SelectAll && sc.tagged then
    some "cannot use dot with special name"
  else if sc.name = SelectAll && sc.negated then
    some "cannot use bang with special name"
  else none

/-- One item of a cohort: the name/tags capability interface tagSelectee
of src/unnamed/part_005. The evaluator caches (byName, byTag) are
recomputed from the item list, which holds the same data. -/
structure tagSelectee where
  name : String
  tags : List String
deriving DecidableEq, Repr

/-- Source method tagSelectorEvaluator.evalCriterion
(src/unnamed/part_005 lines 359-425), with the byName map modelled by a
name search over the item list and the byTag map by a tag filter
(the caches are built from exactly that list). -/
def evalCriterion (items : List tagSelectee) (sc : selectCriterion) :
    Except String (List String) :=
  match criterionValidate sc with
  | some e => .error ("criterion is invalid: " ++ e)
  | none =>
    if sc.name = SelectAll then
      .ok (items.map (fun it => it.name))
    else
      match sc.tagged, sc.negated with
      | false, false =>
        if items.any (fun it => it.name = sc.name) then
          .ok [sc.name]
        else .error ("nothing named " ++ sc.name)
      | true, false =>
        let taggedItems := items.filter (fun it => it.tags.contains sc.name)
        if taggedItems.isEmpty then .error ("nothing has the tag " ++ sc.name)
        else .ok (taggedItems.map (fun it => it.name))
      | false, true =>
        if items.any (fun it => it.name = sc.name) then
          .ok ((items.filter (fun it => it.name ≠ sc.name)).map (fun it => it.name))
        else .error ("nothing named " ++ sc.name)
      | true, true =>
        let taggedItems := items.filter (fun it => it.tags.contains sc.name)
        if taggedItems.isEmpty then .error ("nothing has the tag " ++ sc.name)
        else
          let illegal := taggedItems.map (fun it => it.name)
          .ok ((items.filter (fun it => !(illegal.contains it.name))).map
                (fun it => it.name))

/-- Modelled from the spec: util.StringSliceIntersection is not under
src. The spec says a selector returns the intersection of the
per-criterion result sets; the util helper keeps the members of the
second slice that also appear in the first. -/
def StringSliceIntersection (a b : List String) : List String :=
  b.filter (fun x => a.contains x)

/-- The intersection loop of evalSelector (src/unnamed/part_005 lines
340-351): fold the remaining criteria into the accumulated result,
stopping at the first criterion error. -/
def intersectCriteria (items : List tagSelectee) (acc : List String) :
    Selector → Except String (List String)
  | [] => .ok acc
  | sc :: rest =>
    match evalCriterion items sc with
    | .error e => .error e
    | .ok names => intersectCriteria items (StringSliceIntersection acc names) rest

/-- Source method tagSelectorEvaluator.evalSelector (src/unnamed/part_005
lines 334-356): error on an empty selector, evaluate every criterion and
intersect, error if any criterion fails or the intersection is empty. -/
def evalSelector (items : List tagSelectee) (s : Selector) :
    Except String (List String) :=
  match s with
  | [] => .error "cannot evaluate selector with no criteria"
  | sc :: rest =>
    match evalCriterion items sc with
    | .error e => .error e
    | .ok first =>
      match intersectCriteria items first rest with
      | .error e => .error e
      | .ok results =>
        if results.isEmpty then .error "nothing satisfies selector"
        else .ok results

/-! ### Facts about the selector evaluator -/

theorem mem_StringSliceIntersection {a b : List String} {x : String} :
    x ∈ StringSliceIntersection a b ↔ x ∈ a ∧ x ∈ b := by
  simp [StringSliceIntersection, List.mem_filter, List.elem_iff, and_comm]

theorem intersectCriteria_mem {items : List tagSelectee} :
    ∀ (rest : Selector) (acc r : List String),
    intersectCriteria items acc rest = .ok r →
    ∀ x, x ∈ r ↔
      (x ∈ acc ∧ ∀ sc ∈ rest, ∀ cr, evalCriterion items sc = .ok cr → x ∈ cr) := by
  intro rest
  induction rest with
  | nil =>
    intro acc r h x
    simp only [intersectCriteria] at h
    cases h
    simp
  | cons sc rest ih =>
    intro acc r h x
    simp only [intersectCriteria] at h
    cases hc : evalCriterion items sc with
    | error e => rw [hc] at h; cases h
    | ok names =>
      rw [hc] at h
      have := ih _ _ h x
      rw [this, mem_StringSliceIntersection]
      constructor
      · rintro ⟨⟨hacc, hnames⟩, hrest⟩
        refine ⟨hacc, ?_⟩
        intro sc2 hsc2 cr hcr
        rcases List.mem_cons.mp hsc2 with h1 | h2
        · subst h1; rw [hc] at hcr; cases hcr; exact hnames
        · exact hrest sc2 h2 cr hcr
      · rintro ⟨hacc, hall⟩
        exact ⟨⟨hacc, hall sc (List.mem_cons_self _ _) names hc⟩,
          fun sc2 hsc2 cr hcr => hall sc2 (List.mem_cons_of_mem _ hsc2) cr hcr⟩

theorem intersectCriteria_err {items : List tagSelectee} :
    ∀ (rest : Selector) (acc : List String) (sc : selectCriterion),
    sc ∈ rest → (∀ cr, evalCriterion items sc ≠ .ok cr) →
    ∃ e, intersectCriteria items acc rest = .error e := by
  intro rest
  induction rest with
  | nil => intro acc sc h; cases h
  | cons sc0 rest ih =>
    intro acc sc hmem hbad
    simp only [intersectCriteria]
    cases hc : evalCriterion items sc0 with
    | error e => exact ⟨e, rfl⟩
    | ok names =>
      rcases List.mem_cons.mp hmem with h1 | h2
      · subst h1; exact absurd hc (hbad names)
      · exact ih _ sc h2 hbad

theorem intersectCriteria_ok {items : List tagSelectee} :
    ∀ (rest : Selector) (acc : List String),
    (∀ sc ∈ rest, ∃ cr, evalCriterion items sc = .ok cr) →
    ∃ r, intersectCriteria items acc rest = .ok r := by
  intro rest
  induction rest with
  | nil => intro acc _; exact ⟨acc, rfl⟩
  | cons sc0 rest ih =>
    intro acc hall
    simp only [intersectCriteria]
    rcases hall sc0 (List.mem_cons_self _ _) with ⟨cr, hcr⟩
    rw [hcr]
    exact ih _ (fun sc h => hall sc (List.mem_cons_of_mem _ h))

theorem intersectCriteria_allOk {items : List tagSelectee} :
    ∀ (rest : Selector) (acc r : List String),
    intersectCriteria items acc rest = .ok r →
    ∀ sc ∈ rest, ∃ cr, evalCriterion items sc = .ok cr := by
  intro rest
  induction rest with
  | nil => intro acc r _ sc h; cases h
  | cons sc0 rest ih =>
    intro acc r h sc hmem
    simp only [intersectCriteria] at h
    cases hc : evalCriterion items sc0 with
    | error e => rw [hc] at h; cases h
    | ok names =>
      rw [hc] at h
      rcases List.mem_cons.mp hmem with h1 | h2
      · subst h1; exact ⟨names, hc⟩
      · exact ih _ _ h sc h2

theorem evalSelector_ok_mem {items : List tagSelectee} {s : Selector}
    {r : List String} (h : evalSelector items s = .ok r) :
    r ≠ [] ∧ s ≠ [] ∧
      ∀ x, x ∈ r ↔ ∀ sc ∈ s, ∃ cr, evalCriterion items sc = .ok cr ∧ x ∈ cr := by
  match s with
  | [] => simp [evalSelector] at h
  | sc0 :: rest =>
    simp only [evalSelector] at h
    split at h
    · cases h
    · rename_i first hc
      split at h
      · cases h
      · rename_i results hi
        split at h
        · cases h
        · rename_i hne
          cases h
          refine ⟨by simpa [List.isEmpty_iff] using hne, by simp, ?_⟩
          intro x
          rw [intersectCriteria_mem _ _ _ hi x]
          constructor
          · rintro ⟨hfirst, hrest⟩
            intro sc hsc
            rcases List.mem_cons.mp hsc with h1 | h2
            · subst h1; exact ⟨first, hc, hfirst⟩
            · rcases intersectCriteria_allOk _ _ _ hi sc h2 with ⟨cr, hcr⟩
              exact ⟨cr, hcr, hrest sc h2 cr hcr⟩
          · intro hall
            rcases hall sc0 (List.mem_cons_self _ _) with ⟨cr, hcr, hx⟩
            rw [hc] at hcr
            cases hcr
            refine ⟨hx, ?_⟩
            intro sc hsc cr2 hcr2
            rcases hall sc (List.mem_cons_of_mem _ hsc) with ⟨cr3, hcr3, hx3⟩
            rw [hcr2] at hcr3
            cases hcr3
            exact hx3

theorem evalSelector_err_of_criterion {items : List tagSelectee} {s : Selector}
    (sc : selectCriterion) (hsc : sc ∈ s)
    (hbad : ∀ cr, evalCriterion items sc ≠ .ok cr) :
    ∃ e, evalSelector items s = .error e := by
  cases hres : evalSelector items s with
  | error e => exact ⟨e, rfl⟩
  | ok r =>
    exfalso
    obtain ⟨hr, _, hmem⟩ := evalSelector_ok_mem hres
    obtain ⟨x, hx⟩ := List.exists_mem_of_ne_nil r hr
    obtain ⟨cr, hcr, _⟩ := (hmem x).mp hx sc hsc
    exact hbad cr hcr

theorem evalSelector_err_of_no_common {items : List tagSelectee} {s : Selector}
    (hno : ¬ ∃ x, ∀ sc ∈ s, ∃ cr, evalCriterion items sc = .ok cr ∧ x ∈ cr) :
    ∃ e, evalSelector items s = .error e := by
  cases hres : evalSelector items s with
  | error e => exact ⟨e, rfl⟩
  | ok r =>
    exfalso
    obtain ⟨hr, _, hmem⟩ := evalSelector_ok_mem hres
    obtain ⟨x, hx⟩ := List.exists_mem_of_ne_nil r hr
    exact hno ⟨x, (hmem x).mp hx⟩

theorem evalCriterion_tag_nothing {items : List tagSelectee} {sc : selectCriterion}
    (htag : sc.tagged = true) (hneg : sc.negated = false)
    (hno : ∀ it ∈ items, sc.name ∉ it.tags) :
    ∀ cr, evalCriterion items sc ≠ .ok cr := by
  intro cr hcr
  obtain ⟨nm, tg, ng⟩ := sc
  simp only at htag hneg hno
  subst htag; subst hneg
  simp only [evalCriterion] at hcr
  split at hcr
  · cases hcr
  · rename_i hv
    split at hcr
    · rename_i hall
      rw [hall] at hv
      exact absurd hv (by decide)
    · have hfil : items.filter (fun it => it.tags.contains nm) = [] := by
        rw [List.filter_eq_nil_iff]
        intro it hit
        simpa [List.elem_iff] using hno it hit
      rw [hfil] at hcr
      cases hcr

theorem evalCriterion_name_nothing {items : List tagSelectee} {sc : selectCriterion}
    (htag : sc.tagged = false) (hneg : sc.negated = false)
    (hall : sc.name ≠ SelectAll)
    (hno : ∀ it ∈ items, it.name ≠ sc.name) :
    ∀ cr, evalCriterion items sc ≠ .ok cr := by
  intro cr hcr
  obtain ⟨nm, tg, ng⟩ := sc
  simp only at htag hneg hall hno
  subst htag; subst hneg
  simp only [evalCriterion] at hcr
  split at hcr
  · cases hcr
  · split at hcr
    · exact hall (by assumption)
    · have hany : (items.any (fun it => it.name = nm)) = false := by
        rw [List.any_eq_false]
        intro it hit
        simpa using hno it hit
      rw [hany] at hcr
      cases hcr

/-- Demo cohort used by witnesses: a small tagged color palette. -/
def colorItems : List tagSelectee :=
  [{ name := "red", tags := ["primary", "warm"] },
   { name := "green", tags := ["secondary", "cool"] },
   { name := "blue", tags := ["primary", "cool"] }]

/-- C1: for every cohort and every selector, evalSelector returns exactly
the intersection of the per-criterion result sets (an item is in the
result iff every criterion accepts it), and it errors rather than
returning a result when the selector has no criteria, when any single
criterion fails — in particular a dot-tag criterion whose tag no item
carries, or a plain name criterion naming no item — or when the
intersection of the criteria is empty; a successful result is never the
empty set. -/
theorem c1_evalSelector_intersection (items : List tagSelectee) (s : Selector) :
    (∀ r, evalSelector items s = .ok r →
      r ≠ [] ∧ s ≠ [] ∧
        ∀ x, x ∈ r ↔ ∀ sc ∈ s, ∃ cr, evalCriterion items sc = .ok cr ∧ x ∈ cr)
    ∧ (s = [] → ∃ e, evalSelector items s = .error e)
    ∧ (∀ sc ∈ s, (∀ cr, evalCriterion items sc ≠ .ok cr) →
        ∃ e, evalSelector items s = .error e)
    ∧ (∀ sc ∈ s, sc.tagged = true → sc.negated = false →
        (∀ it ∈ items, sc.name ∉ it.tags) → ∃ e, evalSelector items s = .error e)
    ∧ (∀ sc ∈ s, sc.tagged = false → sc.negated = false → sc.name ≠ SelectAll →
        (∀ it ∈ items, it.name ≠ sc.name) → ∃ e, evalSelector items s = .error e)
    ∧ ((¬ ∃ x, ∀ sc ∈ s, ∃ cr, evalCriterion items sc = .ok cr ∧ x ∈ cr) →
        ∃ e, evalSelector items s = .error e) := by
  refine ⟨fun r h => evalSelector_ok_mem h, ?_, ?_, ?_, ?_, ?_⟩
  · rintro rfl; exact ⟨_, rfl⟩
  · exact fun sc hsc hbad => evalSelector_err_of_criterion sc hsc hbad
  · exact fun sc hsc h1 h2 h3 =>
      evalSelector_err_of_criterion sc hsc (evalCriterion_tag_nothing h1 h2 h3)
  · exact fun sc hsc h1 h2 h3 h4 =>
      evalSelector_err_of_criterion sc hsc (evalCriterion_name_nothing h1 h2 h3 h4)
  · exact fun hno => evalSelector_err_of_no_common hno

/-- Witness for C1: concrete evaluations on the color cohort; the second
and third conjuncts instantiate the claim theorem at concrete inputs. -/
theorem c1_evalSelector_intersection_witness :
    evalSelector colorItems (ParseSelector " .cool .primary ") = .ok ["blue"]
    ∧ (∃ e, evalSelector colorItems [] = .error e)
    ∧ (∃ e, evalSelector colorItems (ParseSelector ".warm .cool") = .error e) := by
  refine ⟨by rfl, (c1_evalSelector_intersection colorItems []).2.1 rfl, ?_⟩
  refine (c1_evalSelector_intersection colorItems
      (ParseSelector ".warm .cool")).2.2.2.2.2 ?_
  rintro ⟨x, hx⟩
  have h1 := hx (stringToCriterion ".warm") (by decide)
  have h2 := hx (stringToCriterion ".cool") (by decide)
  rcases h1 with ⟨cr1, hcr1, hx1⟩
  rcases h2 with ⟨cr2, hcr2, hx2⟩
  have e1 : cr1 = ["red"] := by
    have : evalCriterion colorItems (stringToCriterion ".warm") = .ok ["red"] := by rfl
    rw [this] at hcr1; cases hcr1; rfl
  have e2 : cr2 = ["green", "blue"] := by
    have : evalCriterion colorItems (stringToCriterion ".cool") = .ok ["green", "blue"] := by rfl
    rw [this] at hcr2; cases hcr2; rfl
  subst e1; subst e2
  simp at hx1 hx2
  subst hx1
  simp at hx2

/-! ## Matrix engine (src/model/task/task.go, lines 1650-1890)

Go maps (matrixValue, matrixDefinition) are modelled as association
lists; the list order stands for the iteration order the Go runtime
chooses for the map, which the language leaves unspecified. -/

/-- A cell of a matrix, source type matrixValue: axis id to value id. -/
abbrev matrixValue := List (String × String)

/-- Source type matrixDefinition: axis id to a list of value selectors
(or, once evaluated, of value ids). -/
abbrev matrixDefinition := List (String × List String)

/-- Go map lookup on an association list: the first binding wins. -/
def lookupStr {α : Type} (l : List (String × α)) (k : String) : Option α :=
  (l.find? (fun p => p.1 == k)).map (fun p => p.2)

/-- Source method matrixDefinition.contains (task.go 1763-1774): walks
the entries of the given cell and requires the definition to list every
one of its axes with a matching value. -/
def mdef_contains (mdef : matrixDefinition) (mv : matrixValue) : Bool :=
  mv.all (fun kv =>
    match lookupStr mdef kv.1 with
    | none => false
    | some axis => axis.contains kv.2)

/-- Source method matrixDefinitions.contain (task.go 1795-1802). -/
def mdefs_contain (mds : List matrixDefinition) (v : matrixValue) : Bool :=
  mds.any (fun m => mdef_contains m v)

/-- The odometer enumeration inside matrixDefinition.allCells (task.go
1721-1743) for a given axis iteration order: the first axis varies most
rapidly, later axes receive the carry. -/
def allCellsFrom : matrixDefinition → List matrixValue
  | [] => [[]]
  | (axis, vals) :: rest =>
    (allCellsFrom rest).flatMap (fun cell => vals.map (fun v => (axis, v) :: cell))

/-- Source method matrixDefinition.allCells (task.go 1700-1745): returns
nil for an empty definition, panics (modelled as none) when some axis
has an empty value list, and otherwise enumerates the Cartesian product
in odometer order. -/
def allCells (mdef : matrixDefinition) : Option (List matrixValue) :=
  if mdef.isEmpty then some []
  else if mdef.any (fun p => p.2.isEmpty) then none
  else some (allCellsFrom mdef)

/-- The set-insert of evaluateAxisTags: add an id unless present. The Go
code collects ids in a map used as a set and then iterates it in an
unspecified order; first-occurrence order is the modelled order. -/
def insertUnique (acc : List String) (id : String) : List String :=
  if acc.contains id then acc else acc ++ [id]

/-- Source function evaluateAxisTags (task.go 1832-1850): evaluate every
selector of one axis, accumulate errors, union the resulting ids. -/
def evaluateAxisTags (ase : String → Selector → Except String (List String))
    (axis : String) (selectors : List String) : List String × List String :=
  selectors.foldl
    (fun (st : List String × List String) s =>
      match ase axis (ParseSelector s) with
      | .error e => (st.1, st.2 ++ [e])
      | .ok ids => (ids.foldl insertUnique st.1, st.2)) ([], [])

/-- Source method matrixDefinition.evalutedCopy (task.go 1748-1760,
source spelling kept): evaluate the selectors of every axis; an axis
whose evaluation errors is skipped and its errors accumulate. -/
def evalutedCopy (ase : String → Selector → Except String (List String))
    (mdef : matrixDefinition) : matrixDefinition × List String :=
  mdef.foldl
    (fun (st : matrixDefinition × List String) p =>
      let r := evaluateAxisTags ase p.1 p.2
      if r.2.isEmpty then (st.1 ++ [(p.1, r.1)], st.2)
      else (st.1, st.2 ++ r.2)) ([], [])

/-- Source method matrixDefinitions.evaluatedCopies (task.go 1804-1813). -/
def evaluatedCopies (ase : String → Selector → Except String (List String))
    (mds : List matrixDefinition) : List matrixDefinition × List String :=
  mds.foldl
    (fun (st : List matrixDefinition × List String) md =>
      let r := evalutedCopy ase md
      (st.1 ++ [r.1], st.2 ++ r.2)) ([], [])

/-- Source type matrix (task.go 1816-1829), restricted to the fields the
matrix engine reads before handing a cell to buildMatrixVariant; the
remaining fields (display name, tags, tasks, rules and so on) only feed
buildMatrixVariant, which the claims treat through its success or
failure and which is abstracted as the build parameter below. -/
structure matrix where
  Id : String
  Spec : matrixDefinition := []
  Exclude : List matrixDefinition := []

/-- The cell loop of buildMatrixVariants (task.go 1871-1882): keep every
cell not contained by an exclude, build it, and turn a failed build into
an accumulated error; excluded cells are skipped silently. -/
def pruneStep {V : Type} (build : matrixValue → matrix → Except String V)
    (eexc : List matrixDefinition) (m : matrix)
    (pr : List V × List String) (cell : matrixValue) : List V × List String :=
  if !(mdefs_contain eexc cell) then
    match build cell m with
    | .error e => (pr.1, pr.2 ++ [m.Id ++ ": error building matrix cell: " ++ e])
    | .ok v => (pr.1 ++ [v], pr.2)
  else pr

/-- The per-matrix body of buildMatrixVariants (task.go 1857-1888):
evaluate the spec and the excludes (skipping the matrix on errors),
enumerate the cells (a panic propagates as none), prune and build the
cells, then flag an exclude list that excluded nothing; the surviving
variants are appended in enumeration order. -/
def buildMatrixStep {V : Type}
    (ase : String → Selector → Except String (List String))
    (build : matrixValue → matrix → Except String V)
    (st : List V × List String) (m : matrix) : Option (List V × List String) :=
  match evalutedCopy ase m.Spec with
  | (esp, specErrs) =>
    if !specErrs.isEmpty then some (st.1, st.2 ++ specErrs)
    else
      match evaluatedCopies ase m.Exclude with
      | (eexc, exclErrs) =>
        if !exclErrs.isEmpty then some (st.1, st.2 ++ exclErrs)
        else
          match allCells esp with
          | none => none
          | some unpruned =>
            let pr := unpruned.foldl (pruneStep build eexc m) ([], [])
            let safety :=
              if !m.Exclude.isEmpty && unpruned.length == pr.1.length then
                [m.Id ++ ": exclude field did not exclude anything"]
              else []
            some (st.1 ++ pr.1, st.2 ++ pr.2 ++ safety)

/-- Source function buildMatrixVariants (task.go 1852-1890), with
buildMatrixVariant (task.go 1892-1980) abstracted as the build
parameter. -/
def buildMatrixVariants {V : Type}
    (ase : String → Selector → Except String (List String))
    (build : matrixValue → matrix → Except String V)
    (matrices : List matrix) : Option (List V × List String) :=
  matrices.foldlM (buildMatrixStep ase build) ([], [])

/-- Source type axisValue (task.go 1667-1676). -/
structure axisValue where
  Id : String
  DisplayName : String := ""
  Variables : List (String × String) := []
  RunOn : List String := []
  Tags : List String := []
  Modules : List String := []
  BatchTime : Option Int := none
  Stepback : Option Bool := none
deriving DecidableEq, Repr

/-- Source type matrixAxis (task.go 1652-1656). -/
structure matrixAxis where
  Id : String
  DisplayName : String := ""
  Values : List axisValue := []
deriving DecidableEq, Repr

/-- Modelled from the spec: the axis selector evaluator
(NewAxisSelectorEvaluator and its evalSelector) is not under src, only
its callers in task.go are. The spec instantiates the generic tag
selector evaluator over the axis values of one axis (item name = value
id, item tags = value tags); a spec referencing an unknown axis is an
error. -/
def axisEvalSelector (axes : List matrixAxis) (axis : String) (s : Selector) :
    Except String (List String) :=
  match axes.find? (fun a => a.Id == axis) with
  | none => .error ("unknown axis " ++ axis)
  | some a =>
    evalSelector (a.Values.map (fun v => { name := v.Id, tags := v.Tags })) s

/-- Containment as the claim words it (spec section 4.3, step 3): for
each axis present in the exclude spec, the value of the cell for that
axis must appear in the list of the spec; axes omitted from the exclude
spec match all. Written from the words of the spec, for comparison with
mdef_contains, which is translated from the source. -/
def specExcludeContains (mdef : matrixDefinition) (mv : matrixValue) : Bool :=
  mdef.all (fun p =>
    match lookupStr mv p.1 with
    | some v => p.2.contains v
    | none => false)

/-! ### Facts about the matrix engine -/

theorem pruneStep_fold {V : Type} (build : matrixValue → matrix → Except String V)
    (eexc : List matrixDefinition) (m : matrix) :
    ∀ (cells : List matrixValue) (acc : List V × List String),
    (cells.foldl (pruneStep build eexc m) acc).1 =
      acc.1 ++ ((cells.filter (fun c => !(mdefs_contain eexc c))).filterMap
        (fun c => (build c m).toOption)) := by
  intro cells
  induction cells with
  | nil => intro acc; simp
  | cons c rest ih =>
    intro acc
    simp only [List.foldl_cons, List.filter_cons]
    by_cases hc : mdefs_contain eexc c = true
    · simp only [hc, Bool.not_true, if_neg]
      rw [ih]
      simp [pruneStep, hc]
    · have hc2 : mdefs_contain eexc c = false := by
        cases h : mdefs_contain eexc c
        · rfl
        · exact absurd h hc
      cases hb : build c m with
      | error e =>
        rw [show pruneStep build eexc m acc c = (acc.1, acc.2 ++ [m.Id ++ ": error building matrix cell: " ++ e]) by
              simp [pruneStep, hc2, hb]]
        rw [ih]
        simp [hc2, hb, Except.toOption]
      | ok v =>
        rw [show pruneStep build eexc m acc c = (acc.1 ++ [v], acc.2) by
              simp [pruneStep, hc2, hb]]
        rw [ih]
        simp [hc2, hb, Except.toOption]

theorem filterMap_toOption_length {V : Type} (build : matrixValue → matrix → Except String V)
    (m : matrix) :
    ∀ (l : List matrixValue), (∀ c ∈ l, (build c m).isOk) →
    (l.filterMap (fun c => (build c m).toOption)).length = l.length := by
  intro l
  induction l with
  | nil => intro _; rfl
  | cons c rest ih =>
    intro h
    have hc := h c (List.mem_cons_self _ _)
    cases hb : build c m with
    | error e => rw [hb] at hc; cases hc
    | ok v =>
      have hfc : (build c m).toOption = some v := by rw [hb]; rfl
      simp only [List.filterMap_cons, hfc, List.length_cons]
      rw [ih (fun c2 h2 => h c2 (List.mem_cons_of_mem _ h2))]

theorem length_filter_not_add {α : Type} (p : α → Bool) (l : List α) :
    (l.filter (fun a => !(p a))).length + (l.filter p).length = l.length := by
  induction l with
  | nil => rfl
  | cons a rest ih =>
    by_cases h : p a = true
    · simp [List.filter_cons, h, ← ih]; omega
    · have h2 : p a = false := by cases hh : p a; rfl; exact absurd hh h
      simp [List.filter_cons, h2, ← ih]; omega

theorem allCellsFrom_length (d : matrixDefinition) :
    (allCellsFrom d).length = (d.map (fun p => p.2.length)).prod := by
  induction d with
  | nil => rfl
  | cons p rest ih =>
    obtain ⟨axis, vals⟩ := p
    have hlen : ∀ (cs : List matrixValue),
        (cs.flatMap (fun cell => vals.map (fun v => (axis, v) :: cell))).length
          = cs.length * vals.length := by
      intro cs
      induction cs with
      | nil => simp
      | cons c cs2 ih2 =>
        simp only [List.flatMap_cons, List.length_append, List.length_map, ih2,
          List.length_cons]
        ring
    simp only [allCellsFrom, hlen, ih, List.map_cons, List.prod_cons]
    ring

theorem buildMatrixVariants_singleton {V : Type}
    (ase : String → Selector → Except String (List String))
    (build : matrixValue → matrix → Except String V) (m : matrix) :
    buildMatrixVariants ase build [m] = buildMatrixStep ase build ([], []) m := by
  cases h : buildMatrixStep ase build ([], []) m <;>
    simp [buildMatrixVariants, List.foldlM, h]

theorem buildMatrixStep_ok {V : Type}
    (ase : String → Selector → Except String (List String))
    (build : matrixValue → matrix → Except String V)
    (st : List V × List String) (m : matrix) (esp : matrixDefinition)
    (eexc : List matrixDefinition) (cells : List matrixValue)
    (hspec : evalutedCopy ase m.Spec = (esp, []))
    (hexc : evaluatedCopies ase m.Exclude = (eexc, []))
    (hcells : allCells esp = some cells) :
    buildMatrixStep ase build st m =
      some (st.1 ++ (cells.foldl (pruneStep build eexc m) ([], [])).1,
            st.2 ++ (cells.foldl (pruneStep build eexc m) ([], [])).2 ++
              (if !m.Exclude.isEmpty &&
                  cells.length == (cells.foldl (pruneStep build eexc m) ([], [])).1.length
               then [m.Id ++ ": exclude field did not exclude anything"] else [])) := by
  simp only [buildMatrixStep, hspec, hexc, hcells]
  simp

theorem buildMatrixStep_panic {V : Type}
    (ase : String → Selector → Except String (List String))
    (build : matrixValue → matrix → Except String V)
    (st : List V × List String) (m : matrix) (esp : matrixDefinition)
    (eexc : List matrixDefinition)
    (hspec : evalutedCopy ase m.Spec = (esp, []))
    (hexc : evaluatedCopies ase m.Exclude = (eexc, []))
    (hcells : allCells esp = none) :
    buildMatrixStep ase build st m = none := by
  simp only [buildMatrixStep, hspec, hexc, hcells]
  simp

theorem mdef_contains_iff {mdef : matrixDefinition} {mv : matrixValue} :
    mdef_contains mdef mv = true ↔
      ∀ kv ∈ mv, ∃ vals, lookupStr mdef kv.1 = some vals ∧ kv.2 ∈ vals := by
  simp only [mdef_contains, List.all_eq_true]
  constructor
  · intro h kv hkv
    have h2 := h kv hkv
    cases hl : lookupStr mdef kv.1 with
    | none =>
      simp only [hl] at h2
      exact absurd h2 (by decide)
    | some vals =>
      simp only [hl] at h2
      exact ⟨vals, rfl, by simpa [List.elem_iff] using h2⟩
  · intro h kv hkv
    rcases h kv hkv with ⟨vals, hl, hv⟩
    simp only [hl]
    simpa [List.elem_iff] using hv

theorem mdefs_contain_iff {mds : List matrixDefinition} {mv : matrixValue} :
    mdefs_contain mds mv = true ↔ ∃ e ∈ mds, mdef_contains e mv = true := by
  simp [mdefs_contain, List.any_eq_true]

theorem allCells_none_of_empty_axis {esp : matrixDefinition}
    (hne : esp ≠ []) (h : ∃ p ∈ esp, p.2 = []) : allCells esp = none := by
  simp only [allCells]
  rw [if_neg (by simpa [List.isEmpty_iff] using hne), if_pos]
  rcases h with ⟨p, hp, hp2⟩
  exact List.any_eq_true.mpr ⟨p, hp, by simp [hp2]⟩

theorem allCells_some {esp : matrixDefinition}
    (hne : esp ≠ []) (h : ∀ p ∈ esp, p.2 ≠ []) :
    allCells esp = some (allCellsFrom esp) := by
  simp only [allCells]
  rw [if_neg (by simpa [List.isEmpty_iff] using hne), if_neg]
  intro hany
  rcases List.any_eq_true.mp hany with ⟨p, hp, hp2⟩
  exact h p hp (by simpa [List.isEmpty_iff] using hp2)

/-- Demo axes used by matrix witnesses: os in ubuntu/rhel (tagged linux)
and bits in 32/64. -/
def demoAxes : List matrixAxis :=
  [{ Id := "os",
     Values := [{ Id := "ubuntu", Tags := ["linux"] },
                { Id := "rhel", Tags := ["linux"] }] },
   { Id := "bits",
     Values := [{ Id := "32" }, { Id := "64" }] }]

/-- A matrix whose exclude names the full cell os=ubuntu, bits=32. -/
def demoMatrixFull : matrix :=
  { Id := "mat",
    Spec := [("os", [".linux"]), ("bits", ["32", "64"])],
    Exclude := [[("os", ["ubuntu"]), ("bits", ["32"])]] }

/-- The evaluated spec of the demo matrices. -/
def demoEsp : matrixDefinition := [("os", ["ubuntu", "rhel"]), ("bits", ["32", "64"])]

/-- C3: for a matrix whose spec and excludes evaluate without error
(and whose evaluated spec is well formed, so that cell enumeration
completes), if every surviving cell builds into a variant without error,
then the number of variants appended for that matrix is the number of
cells of the evaluated spec minus the number of cells contained by at
least one exclude spec, and the number of cells is the Cartesian product
of the per-axis value list lengths. -/
theorem c3_matrix_variant_count {V : Type}
    (ase : String → Selector → Except String (List String))
    (build : matrixValue → matrix → Except String V)
    (m : matrix) (esp : matrixDefinition) (eexc : List matrixDefinition)
    (hspec : evalutedCopy ase m.Spec = (esp, []))
    (hexc : evaluatedCopies ase m.Exclude = (eexc, []))
    (hne : esp ≠ []) (hax : ∀ p ∈ esp, p.2 ≠ [])
    (hbuild : ∀ c ∈ allCellsFrom esp,
      mdefs_contain eexc c = false → (build c m).isOk) :
    ∃ vs errs, buildMatrixVariants ase build [m] = some (vs, errs)
      ∧ vs.length =
          (allCellsFrom esp).length
            - ((allCellsFrom esp).filter (fun c => mdefs_contain eexc c)).length
      ∧ (allCellsFrom esp).length = (esp.map (fun p => p.2.length)).prod := by
  have hcells := allCells_some hne hax
  rw [buildMatrixVariants_singleton,
    buildMatrixStep_ok ase build ([], []) m esp eexc _ hspec hexc hcells]
  refine ⟨_, _, rfl, ?_, allCellsFrom_length esp⟩
  rw [List.nil_append, pruneStep_fold, List.nil_append]
  have hok : ∀ c ∈ (allCellsFrom esp).filter (fun c => !(mdefs_contain eexc c)),
      (build c m).isOk := by
    intro c hcf
    have hm := List.mem_filter.mp hcf
    exact hbuild c hm.1 (by simpa using hm.2)
  rw [filterMap_toOption_length build m _ hok]
  have hadd := length_filter_not_add (fun c => mdefs_contain eexc c) (allCellsFrom esp)
  omega

/-- Witness for C3: the demo matrix over the os/bits axes with the full
cell os=ubuntu, bits=32 excluded; the hypotheses are discharged by
computation (3 = 4 - 1 variants are produced). -/
theorem c3_matrix_variant_count_witness :
    ∃ vs errs,
      buildMatrixVariants (axisEvalSelector demoAxes)
          (fun c _ => Except.ok c) [demoMatrixFull] = some (vs, errs)
      ∧ vs.length =
          (allCellsFrom demoEsp).length
            - ((allCellsFrom demoEsp).filter
                (fun c => mdefs_contain demoMatrixFull.Exclude c)).length
      ∧ (allCellsFrom demoEsp).length = (demoEsp.map (fun p => p.2.length)).prod :=
  c3_matrix_variant_count (axisEvalSelector demoAxes) (fun c _ => Except.ok c)
    demoMatrixFull demoEsp demoMatrixFull.Exclude (by rfl) (by rfl)
    (by decide) (by decide) (by decide)

/-- A matrix whose exclude names only the os axis, a strict subset of
the axes of its cells. -/
def demoMatrixSubset : matrix :=
  { Id := "m2",
    Spec := [("os", ["*"]), ("bits", ["*"])],
    Exclude := [[("os", ["ubuntu"])]] }

/-- Counterexample for C2: the first enumerated cell os=ubuntu, bits=32
agrees with the exclude spec os=ubuntu on every axis that spec names, so
under the containment stated by the claim it is contained and must be
dropped; the code nevertheless keeps all four cells (the exclude spec
omits the bits axis, and the source containment walks the axes of the
cell), and even reports that the exclude excluded nothing. -/
theorem c2_exclusion_counterexample :
    specExcludeContains [("os", ["ubuntu"])] [("os", "ubuntu"), ("bits", "32")] = true
    ∧ mdef_contains [("os", ["ubuntu"])] [("os", "ubuntu"), ("bits", "32")] = false
    ∧ buildMatrixVariants (axisEvalSelector demoAxes)
        (fun c _ => Except.ok c) [demoMatrixSubset] =
      some ([[("os", "ubuntu"), ("bits", "32")],
             [("os", "rhel"), ("bits", "32")],
             [("os", "ubuntu"), ("bits", "64")],
             [("os", "rhel"), ("bits", "64")]],
            ["m2: exclude field did not exclude anything"]) :=
  ⟨by decide, by decide, by rfl⟩

/-- C2 (amended): a cell is dropped by the exclusion step iff some
exclude spec contains it, where containment means: for every axis
present in the cell, the exclude spec must name that axis and the value
of the cell for it must appear in the list of the spec. An exclude spec
that omits an axis of the cell therefore matches no such cell (it does
not match all on omitted axes); the surviving cells are built in
enumeration order, a failed build dropping its cell with an error. -/
theorem c2_exclusion_amended {V : Type}
    (ase : String → Selector → Except String (List String))
    (build : matrixValue → matrix → Except String V)
    (m : matrix) (esp : matrixDefinition) (eexc : List matrixDefinition)
    (cells : List matrixValue)
    (hspec : evalutedCopy ase m.Spec = (esp, []))
    (hexc : evaluatedCopies ase m.Exclude = (eexc, []))
    (hcells : allCells esp = some cells) :
    (∃ errs, buildMatrixVariants ase build [m] =
        some ((cells.filter (fun c => !(mdefs_contain eexc c))).filterMap
                (fun c => (build c m).toOption), errs))
    ∧ ∀ c : matrixValue, mdefs_contain eexc c = true ↔
        ∃ e ∈ eexc, ∀ kv ∈ c, ∃ vals, lookupStr e kv.1 = some vals ∧ kv.2 ∈ vals := by
  constructor
  · rw [buildMatrixVariants_singleton,
      buildMatrixStep_ok ase build ([], []) m esp eexc cells hspec hexc hcells]
    rw [List.nil_append, List.nil_append, pruneStep_fold, List.nil_append]
    exact ⟨_, rfl⟩
  · intro c
    rw [mdefs_contain_iff]
    constructor
    · rintro ⟨e, he, hc⟩
      exact ⟨e, he, mdef_contains_iff.mp hc⟩
    · rintro ⟨e, he, hc⟩
      exact ⟨e, he, mdef_contains_iff.mpr hc⟩

/-- Witness for C2 (amended): the demo matrix with the full-cell
exclude; the excluded cell is exactly the one dropped. -/
theorem c2_exclusion_amended_witness :
    (∃ errs, buildMatrixVariants (axisEvalSelector demoAxes)
        (fun c _ => Except.ok c) [demoMatrixFull] =
      some (((allCellsFrom demoEsp).filter
               (fun c => !(mdefs_contain demoMatrixFull.Exclude c))).filterMap
              (fun c => ((Except.ok c : Except String matrixValue)).toOption),
            errs))
    ∧ ∀ c : matrixValue, mdefs_contain demoMatrixFull.Exclude c = true ↔
        ∃ e ∈ demoMatrixFull.Exclude, ∀ kv ∈ c,
          ∃ vals, lookupStr e kv.1 = some vals ∧ kv.2 ∈ vals :=
  c2_exclusion_amended (axisEvalSelector demoAxes)
    (fun c _ => (Except.ok c : Except String matrixValue))
    demoMatrixFull demoEsp demoMatrixFull.Exclude (allCellsFrom demoEsp)
    (by rfl) (by rfl) (by rfl)

/-- A matrix whose spec maps axis a to an empty list of value selectors. -/
def demoMatrixEmptyAxis : matrix := { Id := "m8", Spec := [("a", [])] }

/-- Counterexample for C8: for the spec mapping axis a to an empty list,
spec evaluation succeeds with no error and yields the empty axis, and
cell enumeration then panics — modelled as the none result — so the
matrix engine crashes instead of reporting an error for that matrix
(the source test suite asserts this panic with ShouldPanic). -/
theorem c8_empty_axis_counterexample :
    evalutedCopy (axisEvalSelector demoAxes) [("a", [])] = ([("a", [])], [])
    ∧ allCells [("a", [])] = none
    ∧ buildMatrixVariants (axisEvalSelector demoAxes)
        (fun c _ => (Except.ok c : Except String matrixValue))
        [demoMatrixEmptyAxis] = none :=
  ⟨by rfl, by rfl, by rfl⟩

/-- C8 (amended): for every matrix whose spec evaluates without error to
a nonempty definition, cell enumeration panics (the engine crashes,
returning no result at all, rather than reporting an error) when some
axis has an empty value list, and completes normally when every axis is
nonempty. -/
theorem c8_empty_axis_amended {V : Type}
    (ase : String → Selector → Except String (List String))
    (build : matrixValue → matrix → Except String V)
    (m : matrix) (esp : matrixDefinition) (eexc : List matrixDefinition)
    (hspec : evalutedCopy ase m.Spec = (esp, []))
    (hexc : evaluatedCopies ase m.Exclude = (eexc, []))
    (hne : esp ≠ []) :
    ((∃ p ∈ esp, p.2 = []) → buildMatrixVariants ase build [m] = none)
    ∧ ((∀ p ∈ esp, p.2 ≠ []) →
        ∃ res, buildMatrixVariants ase build [m] = some res) := by
  constructor
  · intro h
    rw [buildMatrixVariants_singleton]
    exact buildMatrixStep_panic ase build ([], []) m esp eexc hspec hexc
      (allCells_none_of_empty_axis hne h)
  · intro h
    rw [buildMatrixVariants_singleton,
      buildMatrixStep_ok ase build ([], []) m esp eexc _ hspec hexc
        (allCells_some hne h)]
    exact ⟨_, rfl⟩

/-- Witness for C8 (amended): both branches at concrete matrices — the
empty-axis demo matrix crashes, the well-formed demo matrix completes. -/
theorem c8_empty_axis_amended_witness :
    (buildMatrixVariants (axisEvalSelector demoAxes)
        (fun c _ => (Except.ok c : Except String matrixValue))
        [demoMatrixEmptyAxis] = none)
    ∧ ∃ res, buildMatrixVariants (axisEvalSelector demoAxes)
        (fun c _ => (Except.ok c : Except String matrixValue))
        [demoMatrixFull] = some res :=
  ⟨(c8_empty_axis_amended (axisEvalSelector demoAxes) _ demoMatrixEmptyAxis
      [("a", [])] [] (by rfl) (by rfl) (by decide)).1
      ⟨("a", []), by decide, rfl⟩,
   (c8_empty_axis_amended (axisEvalSelector demoAxes) _ demoMatrixFull
      demoEsp demoMatrixFull.Exclude (by rfl) (by rfl) (by decide)).2
      (by decide)⟩

/-! ### Cell enumeration and the axis iteration order -/

theorem lookupStr_cons {α : Type} (p : String × α) (rest : List (String × α))
    (k : String) :
    lookupStr (p :: rest) k =
      if p.1 == k then some p.2 else lookupStr rest k := by
  simp only [lookupStr, List.find?]
  cases hpk : (p.1 == k) <;> simp [hpk]

theorem lookupStr_none_iff {α : Type} {l : List (String × α)} {k : String} :
    lookupStr l k = none ↔ k ∉ l.map Prod.fst := by
  induction l with
  | nil => simp [lookupStr]
  | cons p rest ih =>
    rw [lookupStr_cons]
    cases hpk : (p.1 == k) with
    | true =>
      have hp : p.1 = k := by simpa using hpk
      simp [hpk, hp]
    | false =>
      have hp : ¬ p.1 = k := by simpa using hpk
      rw [if_neg (by simp [hpk]), ih]
      simp only [List.map_cons, List.mem_cons]
      constructor
      · intro h hcon
        rcases hcon with h1 | h2
        · exact hp h1.symm
        · exact h h2
      · intro h hk
        exact h (Or.inr hk)

theorem lookupStr_some_mem {α : Type} {l : List (String × α)} {k : String}
    {a : α} (h : lookupStr l k = some a) : (k, a) ∈ l := by
  induction l with
  | nil => simp [lookupStr] at h
  | cons p rest ih =>
    rw [lookupStr_cons] at h
    by_cases hpk : (p.1 == k) = true
    · rw [if_pos hpk] at h
      have hp : p.1 = k := by simpa using hpk
      cases h
      have : p = (k, p.2) := by rw [Prod.ext_iff]; exact ⟨hp, rfl⟩
      exact this ▸ List.mem_cons_self _ _
    · rw [if_neg hpk] at h
      exact List.mem_cons_of_mem _ (ih h)

theorem lookupStr_eq_of_mem {α : Type} {l : List (String × α)}
    (hnd : (l.map Prod.fst).Nodup) {k : String} {v : α}
    (hm : (k, v) ∈ l) : lookupStr l k = some v := by
  induction l with
  | nil => cases hm
  | cons p rest ih =>
    have hnd2 : p.1 ∉ rest.map Prod.fst ∧ (rest.map Prod.fst).Nodup := by
      rw [List.map_cons, List.nodup_cons] at hnd
      exact hnd
    rcases List.mem_cons.mp hm with h1 | h2
    · rw [← h1, lookupStr_cons]
      simp
    · have hk : k ∈ rest.map Prod.fst := List.mem_map.mpr ⟨(k, v), h2, rfl⟩
      have hp1 : (p.1 == k) = false := by
        simp only [beq_eq_false_iff_ne, ne_eq]
        intro he
        exact hnd2.1 (he ▸ hk)
      rw [lookupStr_cons, if_neg (by simp [hp1])]
      exact ih hnd2.2 h2

theorem lookupStr_map_keys {α β : Type} (f : String → β)
    (l : List (String × α)) (k : String) :
    lookupStr (l.map (fun p => (p.1, f p.1))) k =
      (lookupStr l k).map (fun _ => f k) := by
  induction l with
  | nil => rfl
  | cons p rest ih =>
    rw [List.map_cons, lookupStr_cons, lookupStr_cons]
    cases hpk : (p.1 == k) with
    | true =>
      have : p.1 = k := by simpa using hpk
      simp [this]
    | false => simpa [hpk] using ih

theorem mem_allCellsFrom {d : matrixDefinition} {mv : matrixValue} :
    mv ∈ allCellsFrom d ↔
      List.Forall₂ (fun (p : String × List String) (q : String × String) =>
        q.1 = p.1 ∧ q.2 ∈ p.2) d mv := by
  induction d generalizing mv with
  | nil =>
    simp [allCellsFrom, List.forall₂_nil_left_iff]
  | cons p rest ih =>
    obtain ⟨axis, vals⟩ := p
    simp only [allCellsFrom, List.mem_flatMap, List.mem_map]
    constructor
    · rintro ⟨cell, hcell, v, hv, rfl⟩
      exact List.Forall₂.cons ⟨rfl, hv⟩ (ih.mp hcell)
    · intro h
      cases h with
      | cons hq htail =>
        rename_i q t
        refine ⟨t, ih.mpr htail, q.2, hq.2, ?_⟩
        have heq : q = (axis, q.2) := by
          rw [Prod.ext_iff]
          exact ⟨hq.1, rfl⟩
        rw [← heq]

theorem forall₂_cell_keys {d : matrixDefinition} {mv : matrixValue}
    (h : List.Forall₂ (fun (p : String × List String) (q : String × String) =>
        q.1 = p.1 ∧ q.2 ∈ p.2) d mv) :
    mv.map Prod.fst = d.map Prod.fst := by
  induction h with
  | nil => rfl
  | cons hq htail ih => simp [ih, hq.1]

theorem forall₂_cell_exists {d : matrixDefinition} {mv : matrixValue}
    (h : List.Forall₂ (fun (p : String × List String) (q : String × String) =>
        q.1 = p.1 ∧ q.2 ∈ p.2) d mv)
    {p : String × List String} (hp : p ∈ d) :
    ∃ q ∈ mv, q.1 = p.1 ∧ q.2 ∈ p.2 := by
  induction h with
  | nil => cases hp
  | cons hq htail ih =>
    rcases List.mem_cons.mp hp with h1 | h2
    · subst h1
      exact ⟨_, List.mem_cons_self _ _, hq⟩
    · rcases ih h2 with ⟨q, hq2, hq3⟩
      exact ⟨q, List.mem_cons_of_mem _ hq2, hq3⟩

theorem forall₂_cell_of_lookup {mv : matrixValue} :
    ∀ (d : matrixDefinition),
    (∀ p ∈ d, ∃ v, lookupStr mv p.1 = some v ∧ v ∈ p.2) →
    List.Forall₂ (fun (p : String × List String) (q : String × String) =>
        q.1 = p.1 ∧ q.2 ∈ p.2)
      d (d.map (fun p => (p.1, (lookupStr mv p.1).getD ""))) := by
  intro d
  induction d with
  | nil => intro _; exact List.Forall₂.nil
  | cons p rest ih =>
    intro h
    rcases h p (List.mem_cons_self _ _) with ⟨v, hv, hvp⟩
    refine List.Forall₂.cons ⟨rfl, ?_⟩
      (ih (fun q hq => h q (List.mem_cons_of_mem _ hq)))
    simpa [hv] using hvp

theorem cells_lookup_transfer {d₁ d₂ : matrixDefinition} (hperm : d₁.Perm d₂)
    (hnd : (d₁.map Prod.fst).Nodup) :
    ∀ mv ∈ allCellsFrom d₁, ∃ mv2 ∈ allCellsFrom d₂,
      ∀ k, lookupStr mv k = lookupStr mv2 k := by
  intro mv hmv
  have hf := mem_allCellsFrom.mp hmv
  have hkeys : mv.map Prod.fst = d₁.map Prod.fst := forall₂_cell_keys hf
  have hndmv : (mv.map Prod.fst).Nodup := by rw [hkeys]; exact hnd
  have hlook : ∀ p ∈ d₂, ∃ v, lookupStr mv p.1 = some v ∧ v ∈ p.2 := by
    intro p hp
    have hp1 : p ∈ d₁ := hperm.mem_iff.mpr hp
    rcases forall₂_cell_exists hf hp1 with ⟨q, hq, hq1, hq2⟩
    refine ⟨q.2, ?_, hq2⟩
    rw [← hq1]
    exact lookupStr_eq_of_mem hndmv (by rcases q with ⟨q1, q2⟩; exact hq)
  refine ⟨d₂.map (fun p => (p.1, (lookupStr mv p.1).getD "")),
    mem_allCellsFrom.mpr (forall₂_cell_of_lookup d₂ hlook), ?_⟩
  intro k
  rw [lookupStr_map_keys (fun k => (lookupStr mv k).getD "") d₂ k]
  cases hl : lookupStr d₂ k with
  | none =>
    have hk2 : k ∉ d₂.map Prod.fst := lookupStr_none_iff.mp hl
    have hk1 : k ∉ d₁.map Prod.fst := fun hh => hk2 ((hperm.map Prod.fst).mem_iff.mp hh)
    have hnone : lookupStr mv k = none := lookupStr_none_iff.mpr (by rw [hkeys]; exact hk1)
    simp [hnone]
  | some vals =>
    rcases hlook (k, vals) (lookupStr_some_mem hl) with ⟨v, hv, _⟩
    simp [hv]

/-- Two axis iteration orders of the same two-axis matrix definition. -/
def demoOrderA : matrixDefinition := [("a", ["u", "v"]), ("b", ["x", "y"])]

/-- The same definition with the axes visited in the other order. -/
def demoOrderB : matrixDefinition := [("b", ["x", "y"]), ("a", ["u", "v"])]

/-- Counterexample for C7: the two orders describe the same map (every
key looks up to the same value lists), yet odometer enumeration emits
different second cells — under one order it is a=v, b=x and under the
other a=u, b=y — so the order in which matrix cells are enumerated, and
with it the order in which synthesized variants are appended, follows
the iteration order of a Go map, which the runtime does not fix for a
given input. -/
theorem c7_order_counterexample :
    (∀ k, lookupStr demoOrderA k = lookupStr demoOrderB k)
    ∧ lookupStr ((allCellsFrom demoOrderA).getD 1 []) "a" = some "v"
    ∧ lookupStr ((allCellsFrom demoOrderB).getD 1 []) "a" = some "u"
    ∧ lookupStr ((allCellsFrom demoOrderA).getD 1 []) "b" = some "x"
    ∧ lookupStr ((allCellsFrom demoOrderB).getD 1 []) "b" = some "y" := by
  refine ⟨?_, by decide, by decide, by decide, by decide⟩
  intro k
  by_cases h1 : k = "a"
  · subst h1; rfl
  · by_cases h2 : k = "b"
    · subst h2; rfl
    · have hb1 : (("a" : String) == k) = false := by
        simp only [beq_eq_false_iff_ne, ne_eq]
        exact fun he => h1 he.symm
      have hb2 : (("b" : String) == k) = false := by
        simp only [beq_eq_false_iff_ne, ne_eq]
        exact fun he => h2 he.symm
      simp [demoOrderA, demoOrderB, lookupStr_cons, hb1, hb2, lookupStr]

/-- C7 (amended): the compiler is deterministic only up to the iteration
order of the Go maps it ranges over. For a fixed axis iteration order
everything is a pure function of the input, and the multiset of
enumerated cells does not depend on that order — any two iteration
orders of a matrix definition with distinct axis ids enumerate the same
number of cells and cells equal as maps in both directions — but the
sequence order of the enumeration (see the counterexample) is not
reproducible, so neither is the order of appended variants. -/
theorem c7_cells_order_determinism (d₁ d₂ : matrixDefinition)
    (hperm : d₁.Perm d₂) (hnd : (d₁.map Prod.fst).Nodup) :
    (allCellsFrom d₁).length = (allCellsFrom d₂).length
    ∧ (∀ mv ∈ allCellsFrom d₁, ∃ mv2 ∈ allCellsFrom d₂,
        ∀ k, lookupStr mv k = lookupStr mv2 k)
    ∧ (∀ mv ∈ allCellsFrom d₂, ∃ mv2 ∈ allCellsFrom d₁,
        ∀ k, lookupStr mv k = lookupStr mv2 k) := by
  refine ⟨?_, cells_lookup_transfer hperm hnd,
    cells_lookup_transfer hperm.symm (((hperm.map Prod.fst).nodup_iff).mp hnd)⟩
  rw [allCellsFrom_length, allCellsFrom_length]
  exact (hperm.map (fun p => p.2.length)).prod_eq

/-- Witness for C7 (amended): the two concrete axis orders of the demo
definition enumerate equally many cells. -/
theorem c7_cells_order_determinism_witness :
    (allCellsFrom demoOrderA).length = (allCellsFrom demoOrderB).length
    ∧ (∀ mv ∈ allCellsFrom demoOrderA, ∃ mv2 ∈ allCellsFrom demoOrderB,
        ∀ k, lookupStr mv k = lookupStr mv2 k) :=
  ⟨(c7_cells_order_determinism demoOrderA demoOrderB (by decide) (by decide)).1,
   (c7_cells_order_determinism demoOrderA demoOrderB (by decide) (by decide)).2.1⟩

/-! ## Translator (src/model/task/task.go, lines 904-1090 and 1456-1648)

The task and variant selector evaluators are threaded through the
translator as values, mirroring the Go evaluator pointers: tse takes a
parsed selector, vse takes a variant selector (the two-argument variant
evaluator with matrix support is not under src, so it stays a
parameter). -/

/-- Source constant AllDependencies: the star name for dependencies. -/
def AllDependencies : String := "*"

/-- Source type variantSelector (task.go 1010-1013): a tagged union of a
string selector and a matrix sub-definition. -/
structure variantSelector where
  stringSelector : String := ""
  matrixSelector : matrixDefinition := []
deriving DecidableEq, Repr

/-- Source type TaskSelector (task.go 1001-1004): a name and an optional
variant selector (a nil Go pointer is none). -/
structure TaskSelector where
  Name : String
  Variant : Option variantSelector := none
deriving DecidableEq, Repr

/-- Source type parserDependency (task.go 954-958): the embedded
TaskSelector (field sel here) with status and patch-optional. -/
structure parserDependency where
  sel : TaskSelector
  Status : String := ""
  PatchOptional : Bool := false
deriving DecidableEq, Repr

/-- The concrete dependency emitted by the translator, source type
TaskDependency, with the fields evaluateDependsOn writes. -/
structure TaskDependency where
  Name : String
  Variant : String := ""
  Status : String := ""
  PatchOptional : Bool := false
deriving DecidableEq, Repr

/-- The concrete requirement emitted by the translator, source type
TaskRequirement. -/
structure TaskRequirement where
  Name : String
  Variant : String := ""
deriving DecidableEq, Repr

/-- Source type parserBVTask (task.go 1272-1282). -/
structure parserBVTask where
  Name : String
  Patchable : Option Bool := none
  Priority : Int := 0
  DependsOn : List parserDependency := []
  Requires : List TaskSelector := []
  ExecTimeoutSecs : Int := 0
  Stepback : Option Bool := none
  Distros : List String := []
  RunOn : List String := []
deriving DecidableEq, Repr

/-- The concrete variant task emitted by the translator, source type
BuildVariantTask, with the fields evaluateBVTasks writes. -/
structure BuildVariantTask where
  Name : String
  Patchable : Option Bool := none
  Priority : Int := 0
  ExecTimeoutSecs : Int := 0
  Stepback : Option Bool := none
  Distros : List String := []
  DependsOn : List TaskDependency := []
  Requires : List TaskRequirement := []
deriving DecidableEq, Repr

/-- The duplicate and conflict handling of evaluateDependsOn (task.go
1584-1608): a fresh (variant, name) pair is appended and remembered; a
repeated pair equal to the remembered dependency is dropped silently; a
repeated pair with different remaining fields emits a conflict error and
is not added. The Go map newDepsByNameAndVariant holds exactly the
dependencies already appended, so it is modelled by a search of the
accumulated list. -/
def depInsert (st : List TaskDependency × List String) (nd : TaskDependency) :
    List TaskDependency × List String :=
  match st.1.find? (fun old => old.Variant == nd.Variant && old.Name == nd.Name) with
  | none => (st.1 ++ [nd], st.2)
  | some old =>
    if nd = old then st
    else (st.1, st.2 ++ ["conflicting definitions of dependency " ++ nd.Name])

/-- The loop body of evaluateDependsOn (task.go 1562-1608) for one
intermediate dependency: the star name is not evaluated as a selector,
other names go through the task selector evaluator; an absent variant
selector defaults to the single empty variant; one dependency is emitted
per (name, variant) pair, with depInsert handling duplicates. -/
def depStep (tse : Selector → Except String (List String))
    (vse : variantSelector → Except String (List String))
    (st : List TaskDependency × List String) (d : parserDependency) :
    List TaskDependency × List String :=
  match (if d.sel.Name = AllDependencies then .ok [AllDependencies]
         else tse (ParseSelector d.sel.Name)) with
  | .error e => (st.1, st.2 ++ [e])
  | .ok names =>
    match (match d.sel.Variant with
           | none => Except.ok [""]
           | some vs => vse vs) with
    | .error e => (st.1, st.2 ++ [e])
    | .ok variants =>
      names.foldl
        (fun st name =>
          variants.foldl
            (fun st variant =>
              depInsert st { Name := name, Variant := variant,
                             Status := d.Status, PatchOptional := d.PatchOptional })
            st)
        st

/-- Source function evaluateDependsOn (task.go 1556-1611). -/
def evaluateDependsOn (tse : Selector → Except String (List String))
    (vse : variantSelector → Except String (List String))
    (deps : List parserDependency) : List TaskDependency × List String :=
  deps.foldl (depStep tse vse) ([], [])

/-- The dedup insertion of evaluateRequires (task.go 1639-1643):
requirements with an already-present (variant, name) pair are skipped,
with no conflict checking. -/
def reqInsert (acc : List TaskRequirement) (nr : TaskRequirement) :
    List TaskRequirement :=
  if acc.any (fun old => old.Variant == nr.Variant && old.Name == nr.Name) then acc
  else acc ++ [nr]

/-- Source function evaluateRequires (task.go 1614-1648). -/
def evaluateRequires (tse : Selector → Except String (List String))
    (vse : variantSelector → Except String (List String))
    (reqs : List TaskSelector) : List TaskRequirement × List String :=
  reqs.foldl
    (fun (st : List TaskRequirement × List String) r =>
      match tse (ParseSelector r.Name) with
      | .error e => (st.1, st.2 ++ [e])
      | .ok names =>
        match (match r.Variant with
               | none => Except.ok [""]
               | some vs => vse vs) with
        | .error e => (st.1, st.2 ++ [e])
        | .ok variants =>
          names.foldl
            (fun st name =>
              variants.foldl
                (fun (st : List TaskRequirement × List String) variant =>
                  (reqInsert st.1 { Name := name, Variant := variant }, st.2))
                st)
            st)
    ([], [])

/-- The duplicate and conflict handling of evaluateBVTasks (task.go
1538-1549), keyed by task name, analogous to depInsert. -/
def bvtInsert (st : List BuildVariantTask × List String) (t : BuildVariantTask) :
    List BuildVariantTask × List String :=
  match st.1.find? (fun old => old.Name == t.Name) with
  | none => (st.1 ++ [t], st.2)
  | some old =>
    if t = old then st
    else (st.1, st.2 ++ ["conflicting definitions of build variant tasks " ++ t.Name])

/-- Source function evaluateBVTasks (task.go 1510-1553): evaluate each
variant task name as a task selector, emit one task per selected name
carrying the scalar fields and the translated dependencies and
requirements, deduplicate by name with conflict errors. -/
def evaluateBVTasks (tse : Selector → Except String (List String))
    (vse : variantSelector → Except String (List String))
    (pbvts : List parserBVTask) : List BuildVariantTask × List String :=
  pbvts.foldl
    (fun (st : List BuildVariantTask × List String) pt =>
      match tse (ParseSelector pt.Name) with
      | .error e => (st.1, st.2 ++ [e])
      | .ok names =>
        names.foldl
          (fun st name =>
            let deps := evaluateDependsOn tse vse pt.DependsOn
            let reqs := evaluateRequires tse vse pt.Requires
            let t : BuildVariantTask :=
              { Name := name, Patchable := pt.Patchable, Priority := pt.Priority,
                ExecTimeoutSecs := pt.ExecTimeoutSecs, Stepback := pt.Stepback,
                Distros := pt.Distros, DependsOn := deps.1, Requires := reqs.1 }
            bvtInsert (st.1, st.2 ++ deps.2 ++ reqs.2) t)
          st)
    ([], [])

/-- Source type parserBV (task.go 1083-1101), restricted to the fields
evaluateBuildVariants reads or copies into the build variant (the
remaining scalar fields are copied the same way and carry no logic). -/
structure parserBV where
  Name : String := ""
  DisplayName : String := ""
  Tags : List String := []
  Tasks : List parserBVTask := []
deriving DecidableEq, Repr

/-- The build variant emitted by the translator, source type
BuildVariant, restricted the same way. -/
structure BuildVariant where
  DisplayName : String := ""
  Name : String := ""
  Tags : List String := []
  Tasks : List BuildVariantTask := []
deriving DecidableEq, Repr

/-- Source function evaluateBuildVariants (task.go 1483-1505). The Go
loop accumulates every error of every variant into evalErrs, but the
function returns errs, the loop variable holding only the errors of the
last evaluateBVTasks call; the state triple below mirrors the three
locals (bvs, evalErrs, errs) and the returned pair takes bvs and errs,
exactly as the source return statement does. -/
def evaluateBuildVariants (tse : Selector → Except String (List String))
    (vse : variantSelector → Except String (List String))
    (pbvs : List parserBV) : List BuildVariant × List String :=
  let st := pbvs.foldl
    (fun (st : List BuildVariant × List String × List String) pbv =>
      let r := evaluateBVTasks tse vse pbv.Tasks
      (st.1 ++ [{ DisplayName := pbv.DisplayName, Name := pbv.Name,
                  Tags := pbv.Tags, Tasks := r.1 }],
       st.2.1 ++ r.2, r.2))
    ([], [], [])
  (st.1, st.2.2)

/-- A one-task cohort for translator demos. -/
def demoTasks1 : List tagSelectee := [{ name := "t1", tags := ["b"] }]

/-- The task selector evaluator over the one-task cohort, the actual
evaluator of src/unnamed/part_005. -/
def demoTse : Selector → Except String (List String) :=
  fun s => evalSelector demoTasks1 s

/-- A variant selector evaluator resolving everything to the single
unnamed variant (the deps of the demo variants carry no selectors). -/
def demoVse : variantSelector → Except String (List String) :=
  fun _ => Except.ok [""]

/-- A build variant whose only task selector matches nothing. -/
def demoBVBad : parserBV := { Name := "bad", Tasks := [{ Name := "missing" }] }

/-- A build variant whose only task selector resolves. -/
def demoBVGood : parserBV := { Name := "good", Tasks := [{ Name := "t1" }] }

/-- C4: evaluating the task list of the bad variant produces one error,
yet evaluateBuildVariants over bad-then-good returns an empty error
list — the loop accumulates every error into evalErrs but the function
returns the errs of the last iteration only, so errors of every variant
but the last are dropped from the list translateProject accumulates.
With the variants in the other order the same error is reported. -/
theorem c4_variant_errors_dropped :
    (evaluateBVTasks demoTse demoVse demoBVBad.Tasks).2.length = 1
    ∧ (evaluateBuildVariants demoTse demoVse [demoBVBad, demoBVGood]).2 = []
    ∧ (evaluateBuildVariants demoTse demoVse [demoBVBad, demoBVGood]).1.length = 2
    ∧ (evaluateBuildVariants demoTse demoVse [demoBVGood, demoBVBad]).2.length = 1 :=
  ⟨rfl, rfl, rfl, rfl⟩

theorem foldl_preserve {α β : Type} (P : β → Prop) (f : β → α → β)
    (hf : ∀ b a, P b → P (f b a)) :
    ∀ (l : List α) (b : β), P b → P (l.foldl f b) := by
  intro l
  induction l with
  | nil => intro b hb; exact hb
  | cons a rest ih => intro b hb; exact ih _ (hf b a hb)

theorem depInsert_fresh {st : List TaskDependency × List String}
    {nd : TaskDependency}
    (hf : st.1.find? (fun old => old.Variant == nd.Variant && old.Name == nd.Name)
      = none) :
    depInsert st nd = (st.1 ++ [nd], st.2) := by
  unfold depInsert
  rw [hf]

theorem depInsert_dup {st : List TaskDependency × List String}
    {nd old : TaskDependency}
    (hf : st.1.find? (fun o => o.Variant == nd.Variant && o.Name == nd.Name)
      = some old)
    (he : nd = old) :
    depInsert st nd = st := by
  unfold depInsert
  rw [hf]
  simp [he]

theorem depInsert_conflict {st : List TaskDependency × List String}
    {nd old : TaskDependency}
    (hf : st.1.find? (fun o => o.Variant == nd.Variant && o.Name == nd.Name)
      = some old)
    (hne : nd ≠ old) :
    depInsert st nd =
      (st.1, st.2 ++ ["conflicting definitions of dependency " ++ nd.Name]) := by
  unfold depInsert
  rw [hf]
  simp [hne]

theorem depInsert_pairwise {st : List TaskDependency × List String}
    {nd : TaskDependency}
    (h : st.1.Pairwise (fun a b => ¬(a.Variant = b.Variant ∧ a.Name = b.Name))) :
    (depInsert st nd).1.Pairwise
      (fun a b => ¬(a.Variant = b.Variant ∧ a.Name = b.Name)) := by
  cases hf : st.1.find? (fun old => old.Variant == nd.Variant && old.Name == nd.Name) with
  | none =>
    rw [depInsert_fresh hf]
    rw [List.pairwise_append]
    refine ⟨h, List.pairwise_singleton _ _, ?_⟩
    intro a ha b hb
    rw [List.mem_singleton] at hb
    subst hb
    have hnot := List.find?_eq_none.mp hf a ha
    intro hcon
    apply hnot
    simp [hcon.1, hcon.2]
  | some old =>
    by_cases he : nd = old
    · rw [depInsert_dup hf he]; exact h
    · rw [depInsert_conflict hf he]; exact h

theorem depStep_pairwise (tse : Selector → Except String (List String))
    (vse : variantSelector → Except String (List String))
    (st : List TaskDependency × List String) (d : parserDependency)
    (h : st.1.Pairwise (fun a b => ¬(a.Variant = b.Variant ∧ a.Name = b.Name))) :
    (depStep tse vse st d).1.Pairwise
      (fun a b => ¬(a.Variant = b.Variant ∧ a.Name = b.Name)) := by
  unfold depStep
  cases hn : (if d.sel.Name = AllDependencies then .ok [AllDependencies]
              else tse (ParseSelector d.sel.Name)) with
  | error e => exact h
  | ok names =>
    cases hv : (match d.sel.Variant with
                | none => Except.ok [""]
                | some vs => vse vs) with
    | error e => exact h
    | ok variants =>
      refine foldl_preserve
        (fun st => st.1.Pairwise
          (fun a b => ¬(a.Variant = b.Variant ∧ a.Name = b.Name))) _
        ?_ names st h
      intro st2 name h2
      refine foldl_preserve
        (fun st => st.1.Pairwise
          (fun a b => ¬(a.Variant = b.Variant ∧ a.Name = b.Name))) _
        ?_ variants st2 h2
      intro st3 variant h3
      exact depInsert_pairwise h3

/-- C5: within the dependency list of one translated task every
(variant, name) pair appears at most once, and the insertion of a
repeated pair drops it silently when all remaining fields agree with the
remembered dependency, while a repeated pair with any differing field
emits the conflicting-definitions error and is not added; a fresh pair
is appended. -/
theorem c5_dependency_dedup_conflict
    (tse : Selector → Except String (List String))
    (vse : variantSelector → Except String (List String))
    (deps : List parserDependency) :
    ((evaluateDependsOn tse vse deps).1.Pairwise
        (fun a b => ¬(a.Variant = b.Variant ∧ a.Name = b.Name)))
    ∧ (∀ (st : List TaskDependency × List String) (nd : TaskDependency),
        st.1.find? (fun old => old.Variant == nd.Variant && old.Name == nd.Name)
          = none →
        depInsert st nd = (st.1 ++ [nd], st.2))
    ∧ (∀ (st : List TaskDependency × List String) (nd old : TaskDependency),
        st.1.find? (fun o => o.Variant == nd.Variant && o.Name == nd.Name)
          = some old →
        nd = old → depInsert st nd = st)
    ∧ (∀ (st : List TaskDependency × List String) (nd old : TaskDependency),
        st.1.find? (fun o => o.Variant == nd.Variant && o.Name == nd.Name)
          = some old →
        nd ≠ old → depInsert st nd =
          (st.1, st.2 ++ ["conflicting definitions of dependency " ++ nd.Name])) := by
  refine ⟨?_, ?_, ?_, ?_⟩
  · exact foldl_preserve
      (fun st => st.1.Pairwise
        (fun a b => ¬(a.Variant = b.Variant ∧ a.Name = b.Name)))
      (depStep tse vse)
      (fun st d h => depStep_pairwise tse vse st d h)
      deps ([], []) (List.Pairwise.nil)
  · exact fun st nd hf => depInsert_fresh hf
  · exact fun st nd old hf he => depInsert_dup hf he
  · exact fun st nd old hf hne => depInsert_conflict hf hne

/-- A dependency list that replays the conflict scenario of the source
tests: t1 selected twice with different status fields. -/
def demoConflictDeps : List parserDependency :=
  [{ sel := { Name := "t1" }, Status := "*" },
   { sel := { Name := ".b" } }]

/-- Witness for C5: on the demo cohort the conflicting list produces one
conflict error and a duplicate-free dependency list; the insertion
conjuncts are instantiated at concrete states. -/
theorem c5_dependency_dedup_conflict_witness :
    ((evaluateDependsOn demoTse demoVse demoConflictDeps).1.Pairwise
        (fun a b => ¬(a.Variant = b.Variant ∧ a.Name = b.Name)))
    ∧ depInsert ([], []) { Name := "t1", Status := "*" } =
        ([{ Name := "t1", Status := "*" }], [])
    ∧ depInsert ([{ Name := "t1", Status := "*" }], [])
        { Name := "t1", Status := "*" } =
        ([{ Name := "t1", Status := "*" }], [])
    ∧ depInsert ([{ Name := "t1", Status := "*" }], []) { Name := "t1" } =
        ([{ Name := "t1", Status := "*" }],
         ["conflicting definitions of dependency t1"])
    ∧ (evaluateDependsOn demoTse demoVse demoConflictDeps).2.length = 1 :=
  ⟨(c5_dependency_dedup_conflict demoTse demoVse demoConflictDeps).1,
   (c5_dependency_dedup_conflict demoTse demoVse demoConflictDeps).2.1
     ([], []) { Name := "t1", Status := "*" } rfl,
   (c5_dependency_dedup_conflict demoTse demoVse demoConflictDeps).2.2.1
     ([{ Name := "t1", Status := "*" }], [])
     { Name := "t1", Status := "*" } { Name := "t1", Status := "*" } rfl rfl,
   (c5_dependency_dedup_conflict demoTse demoVse demoConflictDeps).2.2.2
     ([{ Name := "t1", Status := "*" }], [])
     { Name := "t1" } { Name := "t1", Status := "*" } rfl (by decide),
   rfl⟩

theorem depInsert_fold_fresh (nm stt : String) (po : Bool) :
    ∀ (vars : List String) (ds : List TaskDependency) (es : List String),
    vars.Nodup →
    (∀ v ∈ vars,
      ds.find? (fun old => old.Variant == v && old.Name == nm) = none) →
    vars.foldl
      (fun st variant =>
        depInsert st { Name := nm, Variant := variant,
                       Status := stt, PatchOptional := po })
      (ds, es) =
      (ds ++ vars.map (fun v => { Name := nm, Variant := v,
                                  Status := stt, PatchOptional := po }), es) := by
  intro vars
  induction vars with
  | nil => intro ds es _ _; simp
  | cons v rest ih =>
    intro ds es hnd hfresh
    have hv := hfresh v (List.mem_cons_self _ _)
    rw [List.foldl_cons, depInsert_fresh hv]
    dsimp only
    have hnd2 := List.nodup_cons.mp hnd
    have hfresh2 : ∀ v2 ∈ rest,
        (ds ++ [({ Name := nm, Variant := v, Status := stt,
                   PatchOptional := po } : TaskDependency)]).find?
          (fun old => old.Variant == v2 && old.Name == nm) = none := by
      intro v2 hv2
      rw [List.find?_eq_none]
      intro x hx
      rcases List.mem_append.mp hx with h1 | h2
      · exact List.find?_eq_none.mp (hfresh v2 (List.mem_cons_of_mem _ hv2)) x h1
      · rw [List.mem_singleton] at h2
        subst h2
        simp only [Bool.and_eq_true, beq_iff_eq, not_and]
        intro hveq
        exact absurd (hveq ▸ hv2) hnd2.1
    have hrec := ih (ds ++ [{ Name := nm, Variant := v, Status := stt,
                              PatchOptional := po }]) es hnd2.2 hfresh2
    rw [hrec]
    simp

/-- C6: a dependency whose name is the star is not evaluated as a task
selector — the translation does not depend on the task selector
evaluator at all — and the star name is preserved literally in every
emitted dependency; an absent variant selector yields the single
dependency on the empty variant, a present variant selector is still
evaluated and one dependency is emitted per resulting variant name, and
an error of the variant evaluation is still reported. -/
theorem c6_star_dependency
    (tse₁ tse₂ : Selector → Except String (List String))
    (vse : variantSelector → Except String (List String))
    (d : parserDependency) (hstar : d.sel.Name = AllDependencies) :
    (evaluateDependsOn tse₁ vse [d] = evaluateDependsOn tse₂ vse [d])
    ∧ (d.sel.Variant = none →
        (evaluateDependsOn tse₁ vse [d]).1 =
          [{ Name := AllDependencies, Variant := "", Status := d.Status,
             PatchOptional := d.PatchOptional }])
    ∧ (∀ vs vars, d.sel.Variant = some vs → vse vs = Except.ok vars →
        vars.Nodup →
        (evaluateDependsOn tse₁ vse [d]).1 =
          vars.map (fun v => { Name := AllDependencies, Variant := v,
                               Status := d.Status,
                               PatchOptional := d.PatchOptional }))
    ∧ (∀ vs e, d.sel.Variant = some vs → vse vs = Except.error e →
        evaluateDependsOn tse₁ vse [d] = ([], [e])) := by
  refine ⟨?_, ?_, ?_, ?_⟩
  · simp [evaluateDependsOn, depStep, hstar]
  · intro hv
    simp [evaluateDependsOn, depStep, hstar, hv, depInsert]
  · intro vs vars hv hok hnd
    simp only [evaluateDependsOn, List.foldl_cons, List.foldl_nil, depStep, hstar,
      if_pos, hv, hok]
    rw [depInsert_fold_fresh AllDependencies d.Status d.PatchOptional vars [] []
      hnd (fun v _ => rfl)]
    simp
  · intro vs e hv herr
    simp [evaluateDependsOn, depStep, hstar, hv, herr]

/-- A star dependency with a variant selector and a status. -/
def demoStarDep : parserDependency :=
  { sel := { Name := "*", Variant := some { stringSelector := "v" } },
    Status := "failed" }

/-- A variant selector evaluator returning two variants. -/
def demoVse6 : variantSelector → Except String (List String) :=
  fun _ => Except.ok ["v1", "v2"]

/-- A task selector evaluator that fails on every selector; a star
dependency must never consult it. -/
def demoTseFail : Selector → Except String (List String) :=
  fun _ => Except.error "task selector evaluator must not be consulted"

/-- Witness for C6: with a failing task selector evaluator the star
dependency still translates, identically to the real evaluator, and
emits one literal star dependency per variant name. -/
theorem c6_star_dependency_witness :
    (evaluateDependsOn demoTseFail demoVse6 [demoStarDep] =
      evaluateDependsOn demoTse demoVse6 [demoStarDep])
    ∧ (evaluateDependsOn demoTseFail demoVse6 [demoStarDep]).1 =
        [{ Name := AllDependencies, Variant := "v1", Status := "failed" },
         { Name := AllDependencies, Variant := "v2", Status := "failed" }] :=
  ⟨(c6_star_dependency demoTseFail demoTse demoVse6 demoStarDep rfl).1,
   (c6_star_dependency demoTseFail demoTse demoVse6 demoStarDep rfl).2.2.1
     { stringSelector := "v" } ["v1", "v2"] rfl rfl (by decide)⟩

/-! ## Expansion of matrix variant tasks (task.go 1171-1269) -/

/-- The opening brace character of a placeholder. -/
def lbrace : Char := Char.ofNat 123

/-- The closing brace character of a placeholder. -/
def rbrace : Char := Char.ofNat 125

/-- Modelled from the spec: the worker of command.Expansions.ExpandString,
which is not under src. It copies characters, and on a dollar-brace
placeholder substitutes the value of the named expansion; per the spec,
an unresolved placeholder surfaces as an error. The second argument
holds the name of the placeholder being read, none while copying. -/
def expandGo (exp : List (String × String)) :
    List Char → Option (List Char) → List Char → Except String (List Char)
  | [], none, acc => .ok acc.reverse
  | [], some _, _ => .error "unclosed expansion placeholder"
  | c :: rest, none, acc =>
    if c = '$' then
      match rest with
      | [] => .ok (c :: acc).reverse
      | d :: rest2 =>
        if d = lbrace then expandGo exp rest2 (some []) acc
        else expandGo exp rest2 none (d :: c :: acc)
    else expandGo exp rest none (c :: acc)
  | c :: rest, some nameAcc, acc =>
    if c = rbrace then
      match lookupStr exp nameAcc.reverse.asString with
      | none => .error ("unresolved expansion " ++ nameAcc.reverse.asString)
      | some v => expandGo exp rest none (v.data.reverse ++ acc)
    else expandGo exp rest (some (c :: nameAcc)) acc

/-- Modelled from the spec: command.Expansions.ExpandString. -/
def expandString (exp : List (String × String)) (s : String) :
    Except String String :=
  match expandGo exp s.data none [] with
  | .error e => .error e
  | .ok cs => .ok cs.asString

/-- Source function expandStrings (task.go 1172-1182): expand each
string of a slice, stopping at the first error. -/
def expandStrings (exp : List (String × String)) (strs : List String) :
    Except String (List String) :=
  strs.mapM (expandString exp)

/-- Source function expandTaskSelector (task.go 1244-1269). The source
allocates a fresh TaskSelector, fills in only the expanded name, expands
the variant selector through the pointer shared with the input selector,
and returns the fresh value without ever assigning its Variant field —
so the returned selector carries no variant selector even when the input
carried one, while the expansion work (and any error from it) still
happens. -/
def expandTaskSelector (ts : TaskSelector) (exp : List (String × String)) :
    Except String TaskSelector :=
  match expandString exp ts.Name with
  | .error e => .error ("expanding name: " ++ e)
  | .ok newName =>
    match ts.Variant with
    | none => .ok { Name := newName, Variant := none }
    | some v =>
      if !v.matrixSelector.isEmpty then
        match v.matrixSelector.mapM
            (fun p => (expandStrings exp p.2).map (fun nv => (p.1, nv))) with
        | .error e => .error ("expanding variant: " ++ e)
        | .ok _ => .ok { Name := newName, Variant := none }
      else
        match expandString exp v.stringSelector with
        | .error e => .error ("expanding variant: " ++ e)
        | .ok _ => .ok { Name := newName, Variant := none }

/-- Source function expandParserBVTask (task.go 1202-1241): expand the
name, run-on and distro lists, the status and embedded selector of every
dependency, and every requirement selector, against the accumulated
expansion map. -/
def expandParserBVTask (pbvt : parserBVTask) (exp : List (String × String)) :
    Except String parserBVTask :=
  match expandString exp pbvt.Name with
  | .error e => .error ("expanding name: " ++ e)
  | .ok newName =>
  match expandStrings exp pbvt.RunOn with
  | .error e => .error ("expanding run_on: " ++ e)
  | .ok newRunOn =>
  match expandStrings exp pbvt.Distros with
  | .error e => .error ("expanding distros: " ++ e)
  | .ok newDistros =>
  match pbvt.DependsOn.mapM
      (fun d =>
        match expandString exp d.Status with
        | .error e => Except.error ("expanding depends_on status: " ++ e)
        | .ok newStatus =>
          match expandTaskSelector d.sel exp with
          | .error e => Except.error ("expanding depends_on: " ++ e)
          | .ok newSel =>
            Except.ok { d with Status := newStatus, sel := newSel }) with
  | .error e => .error e
  | .ok newDeps =>
  match pbvt.Requires.mapM (fun r => expandTaskSelector r exp) with
  | .error e => .error ("expanding requires: " ++ e)
  | .ok newReqs =>
    .ok { pbvt with Name := newName, RunOn := newRunOn, Distros := newDistros,
                    DependsOn := newDeps, Requires := newReqs }

/-- A concrete expansion map for the C9 scenario. -/
def demoExpMap : List (String × String) := [("user", "root")]

/-- A dependency carrying a variant selector, with placeholders. -/
def demoExpDep : parserDependency :=
  { sel := { Name := "dep-${user}",
             Variant := some { stringSelector := "v-${user}" } },
    Status := "status-${user}" }

/-- A requirement carrying a variant selector. -/
def demoExpReq : TaskSelector :=
  { Name := "req1", Variant := some { stringSelector := ".cool" } }

/-- A matrix-level variant task whose dependency and requirement both
carry variant selectors, with placeholders in several fields. -/
def demoExpTask : parserBVTask :=
  { Name := "task-${user}",
    RunOn := ["distro-${user}"],
    DependsOn := [demoExpDep],
    Requires := [demoExpReq] }

/-- C9: expanding a matrix-level variant task applies the expansion map
to its name, run-on list, its dependency status and the embedded
selector names — but the dependency and the requirement that carried a
variant selector before expansion come back with no variant selector at
all: expandTaskSelector computes the expanded variant selector and then
drops it from the returned value, so the expanded task does not retain
it. -/
theorem c9_variant_selector_dropped :
    demoExpTask.DependsOn.map (fun d => d.sel.Variant) =
      [some { stringSelector := "v-${user}" }]
    ∧ demoExpTask.Requires.map (fun r => r.Variant) =
      [some { stringSelector := ".cool" }]
    ∧ (demoExpTask.DependsOn.map (fun d => d.sel.Variant)).all Option.isSome = true
    ∧ (demoExpTask.Requires.map (fun r => r.Variant)).all Option.isSome = true
    ∧ expandParserBVTask demoExpTask demoExpMap =
        .ok { Name := "task-root",
              RunOn := ["distro-root"],
              DependsOn := [{ sel := { Name := "dep-root", Variant := none },
                              Status := "status-root" }],
              Requires := [{ Name := "req1", Variant := none }] } :=
  ⟨rfl, rfl, rfl, rfl, rfl⟩

/-! ## Loading a project (task.go 1356-1385) -/

/-- The final Project type, restricted to the identifier plus
representative payload fields (the remaining top-level fields are copied
the same way by translateProject and carry no logic here). -/
structure Project where
  Identifier : String := ""
  Owner : String := ""
  Branch : String := ""
  BuildVariants : List BuildVariant := []
deriving DecidableEq, Repr

/-- Source function LoadProjectInto (task.go 1358-1374). projectFromYAML
(task.go 1378-1385, whose YAML front end is external) is a parameter;
it returns the translated project and the accumulated error list. The
result pair is the returned error and the new contents of the caller
project variable: on any error the variable keeps its old value, on the
successful path it receives the translated project with the identifier
field set. -/
def LoadProjectInto (fromYAML : List Nat → Project × List String)
    (data : List Nat) (identifier : String) (project : Project) :
    Option String × Project :=
  let r := fromYAML data
  if !r.2.isEmpty then
    (some ("error loading project yaml: " ++ String.intercalate " " r.2), project)
  else
    (none, { r.1 with Identifier := identifier })

/-- C10: whenever parsing or translation produces any error,
LoadProjectInto returns a non-nil error and leaves the caller project
value unchanged; the value is overwritten, with its identifier set, only
on the fully successful path. -/
theorem c10_load_project_into (fromYAML : List Nat → Project × List String)
    (data : List Nat) (identifier : String) (project : Project) :
    ((fromYAML data).2 ≠ [] →
      (LoadProjectInto fromYAML data identifier project).2 = project
      ∧ (LoadProjectInto fromYAML data identifier project).1.isSome = true)
    ∧ ((fromYAML data).2 = [] →
      LoadProjectInto fromYAML data identifier project =
        (none, { (fromYAML data).1 with Identifier := identifier })) := by
  constructor
  · intro herr
    have hne : (!(fromYAML data).2.isEmpty) = true := by
      simpa [List.isEmpty_iff] using herr
    constructor <;> simp [LoadProjectInto, hne]
  · intro heq
    have hem : (!(fromYAML data).2.isEmpty) = false := by
      simp [List.isEmpty_iff, heq]
    simp [LoadProjectInto, hem]

/-- Witness for C10: a failing front end leaves the concrete project
untouched; a succeeding one overwrites it and sets the identifier. -/
theorem c10_load_project_into_witness :
    ((LoadProjectInto (fun _ => ({ Owner := "new" }, ["bad yaml"])) []
        "ident" { Owner := "old" }).2 = { Owner := "old" }
      ∧ (LoadProjectInto (fun _ => ({ Owner := "new" }, ["bad yaml"])) []
          "ident" { Owner := "old" }).1.isSome = true)
    ∧ LoadProjectInto (fun _ => ({ Owner := "new" }, [])) []
        "ident" { Owner := "old" } =
      (none, { Identifier := "ident", Owner := "new" }) :=
  ⟨(c10_load_project_into (fun _ => ({ Owner := "new" }, ["bad yaml"])) []
      "ident" { Owner := "old" }).1 (by decide),
   (c10_load_project_into (fun _ => ({ Owner := "new" }, [])) []
      "ident" { Owner := "old" }).2 rfl⟩
